import Mathlib

/-!
Verification development for the ecpprog JTAG/flash programming tool.

The definitions below are a shallow embedding of the C sources:
  * `src/jtag_tap.c` — the IEEE-1149.1 TAP state machine, the `tms_map`
    next-hop table, `jtag_go_to_state` and `jtag_tap_shift`;
  * `src/ecpprog/ecpprog.c` — the erase/program planning loops in `main`,
    `flash_wait`, `print_idcode` and `read_status_register`;
  * `src/ecpprog/lattice_cmds.h` — device-ID tables and IR opcodes.

TAP states are the C `STATE_*` constants.  Their numeric values (0..15) are
fixed by the state/index table in the comment block of `src/jtag_tap.c`
(lines 68-87), which indexes `tms_map` by exactly this numbering.
-/

def STATE_TEST_LOGIC_RESET : Nat := 0x0
def STATE_RUN_TEST_IDLE : Nat := 0x1
def STATE_SELECT_DR_SCAN : Nat := 0x2
def STATE_CAPTURE_DR : Nat := 0x3
def STATE_SHIFT_DR : Nat := 0x4
def STATE_EXIT1_DR : Nat := 0x5
def STATE_PAUSE_DR : Nat := 0x6
def STATE_EXIT2_DR : Nat := 0x7
def STATE_UPDATE_DR : Nat := 0x8
def STATE_SELECT_IR_SCAN : Nat := 0x9
def STATE_CAPTURE_IR : Nat := 0xA
def STATE_SHIFT_IR : Nat := 0xB
def STATE_EXIT1_IR : Nat := 0xC
def STATE_PAUSE_IR : Nat := 0xD
def STATE_EXIT2_IR : Nat := 0xE
def STATE_UPDATE_IR : Nat := 0xF

/-- The `TMS_T` packing macro of `src/jtag_tap.c`: high nibble is the TMS=1
successor, low nibble the TMS=0 successor. -/
def TMS_T (tmsHigh tmsLow : Nat) : Nat := (tmsHigh <<< 4) ||| tmsLow

/-- The `tms_transitions` table of `src/jtag_tap.c` (lines 27-44). -/
def tms_transitions : List Nat := [
  /- STATE_TEST_LOGIC_RESET -/ TMS_T STATE_TEST_LOGIC_RESET STATE_RUN_TEST_IDLE,
  /- STATE_RUN_TEST_IDLE    -/ TMS_T STATE_SELECT_DR_SCAN   STATE_RUN_TEST_IDLE,
  /- STATE_SELECT_DR_SCAN   -/ TMS_T STATE_SELECT_IR_SCAN   STATE_CAPTURE_DR,
  /- STATE_CAPTURE_DR       -/ TMS_T STATE_EXIT1_DR         STATE_SHIFT_DR,
  /- STATE_SHIFT_DR         -/ TMS_T STATE_EXIT1_DR         STATE_SHIFT_DR,
  /- STATE_EXIT1_DR         -/ TMS_T STATE_UPDATE_DR        STATE_PAUSE_DR,
  /- STATE_PAUSE_DR         -/ TMS_T STATE_EXIT2_DR         STATE_PAUSE_DR,
  /- STATE_EXIT2_DR         -/ TMS_T STATE_UPDATE_DR        STATE_SHIFT_DR,
  /- STATE_UPDATE_DR        -/ TMS_T STATE_SELECT_DR_SCAN   STATE_RUN_TEST_IDLE,
  /- STATE_SELECT_IR_SCAN   -/ TMS_T STATE_TEST_LOGIC_RESET STATE_CAPTURE_IR,
  /- STATE_CAPTURE_IR       -/ TMS_T STATE_EXIT1_IR         STATE_SHIFT_IR,
  /- STATE_SHIFT_IR         -/ TMS_T STATE_EXIT1_IR         STATE_SHIFT_IR,
  /- STATE_EXIT1_IR         -/ TMS_T STATE_UPDATE_IR        STATE_PAUSE_IR,
  /- STATE_PAUSE_IR         -/ TMS_T STATE_EXIT2_IR         STATE_PAUSE_IR,
  /- STATE_EXIT2_IR         -/ TMS_T STATE_UPDATE_IR        STATE_SHIFT_IR,
  /- STATE_UPDATE_IR        -/ TMS_T STATE_SELECT_DR_SCAN   STATE_RUN_TEST_IDLE ]

/-- The `BITSTR` packing macro of `src/jtag_tap.c` (lines 46-62): packs 16
bits, first argument highest. -/
def BITSTR (a b c d e f g h i j k l m n o p : Nat) : Nat :=
  (a <<< 15) ||| (b <<< 14) ||| (c <<< 13) ||| (d <<< 12) |||
  (e <<< 11) ||| (f <<< 10) ||| (g <<< 9) ||| (h <<< 8) |||
  (i <<< 7) ||| (j <<< 6) ||| (k <<< 5) ||| (l <<< 4) |||
  (m <<< 3) ||| (n <<< 2) ||| (o <<< 1) ||| (p <<< 0)

/-- The `tms_map` next-hop table of `src/jtag_tap.c` (lines 90-107): bit `t`
of entry `s` is the TMS value to emit in state `s` to move toward state `t`. -/
def tms_map : List Nat := [
  /- STATE_TEST_LOGIC_RESET -/ BITSTR 0 0 0 0  0 0 0 0  0 0 0 0  0 0 0 1,
  /- STATE_RUN_TEST_IDLE    -/ BITSTR 1 1 1 1  1 1 1 1  1 1 1 1  1 1 0 1,
  /- STATE_SELECT_DR_SCAN   -/ BITSTR 1 1 1 1  1 1 1 0  0 0 0 0  0 0 1 1,
  /- STATE_CAPTURE_DR       -/ BITSTR 1 1 1 1  1 1 1 1  1 1 1 0  0 1 1 1,
  /- STATE_SHIFT_DR         -/ BITSTR 1 1 1 1  1 1 1 1  1 1 1 0  1 1 1 1,
  /- STATE_EXIT1_DR         -/ BITSTR 1 1 1 1  1 1 1 1  0 0 0 0  1 1 1 1,
  /- STATE_PAUSE_DR         -/ BITSTR 1 1 1 1  1 1 1 1  1 0 1 1  1 1 1 1,
  /- STATE_EXIT2_DR         -/ BITSTR 1 1 1 1  1 1 1 1  0 0 0 0  1 1 1 1,
  /- STATE_UPDATE_DR        -/ BITSTR 1 1 1 1  1 1 1 0  1 1 1 1  1 1 0 1,
  /- STATE_SELECT_IR_SCAN   -/ BITSTR 0 0 0 0  0 0 0 1  1 1 1 1  1 1 1 1,
  /- STATE_CAPTURE_IR       -/ BITSTR 1 1 1 1  0 0 1 1  1 1 1 1  1 1 1 1,
  /- STATE_SHIFT_IR         -/ BITSTR 1 1 1 1  0 1 1 1  1 1 1 1  1 1 1 1,
  /- STATE_EXIT1_IR         -/ BITSTR 1 0 0 0  0 1 1 1  1 1 1 1  1 1 1 1,
  /- STATE_PAUSE_IR         -/ BITSTR 1 1 0 1  1 1 1 1  1 1 1 1  1 1 1 1,
  /- STATE_EXIT2_IR         -/ BITSTR 1 0 0 0  0 1 1 1  1 1 1 1  1 1 1 1,
  /- STATE_UPDATE_IR        -/ BITSTR 0 1 1 1  1 1 1 1  1 1 1 1  1 1 0 1 ]

/-- `jtag_state_ack` of `src/jtag_tap.c` (lines 191-198), functionally: the
new current state after a TMS pulse of value `tms` in state `s`. -/
def jtag_state_ack (tms : Bool) (s : Nat) : Nat :=
  if tms then (tms_transitions.get! s >>> 4) &&& 0xF
  else tms_transitions.get! s &&& 0xF

/-- Observable outcome of a `jtag_go_to_state` call: the final TAP state, the
TMS bits queued to the transport (in transmission order), and the number of
`jtag_state_ack` calls (TAP-state advances). -/
structure NavResult where
  state : Nat
  tms : List Bool
  acks : Nat
deriving DecidableEq

/-- The `while (jtag_current_state() != state)` loop of `jtag_go_to_state`
(`src/jtag_tap.c` lines 221-230).  Each iteration emits the next-hop TMS bit
`(tms_map[cur] >> state) & 1` and advances the state.  The C loop is
unbounded; `fuel` bounds the number of iterations modelled. -/
def jtag_go_to_state_loop (target : Nat) : Nat → Nat → NavResult
  | cur, 0 => ⟨cur, [], 0⟩
  | cur, fuel+1 =>
    if cur = target then ⟨cur, [], 0⟩
    else
      let bit : Bool := ((tms_map.get! cur >>> target) &&& 1) != 0
      let next := jtag_state_ack bit cur
      let r := jtag_go_to_state_loop target next fuel
      ⟨r.state, bit :: r.tms, r.acks + 1⟩

/-- `jtag_go_to_state` of `src/jtag_tap.c` (lines 200-232).  For target
`STATE_TEST_LOGIC_RESET` it calls `jtag_state_ack(true)` five times and
queues one MPSSE TMS command of five 1-bits (length byte `5 - 1`, payload
`0b11111`); otherwise it runs the next-hop loop. -/
def jtag_go_to_state (state cur fuel : Nat) : NavResult :=
  if state = STATE_TEST_LOGIC_RESET then
    ⟨jtag_state_ack true (jtag_state_ack true (jtag_state_ack true
        (jtag_state_ack true (jtag_state_ack true cur)))),
     List.replicate 5 true, 5⟩
  else
    jtag_go_to_state_loop state cur fuel

lemma jtag_go_to_state_loop_stable (target : Nat) :
    ∀ fuel cur, (jtag_go_to_state_loop target cur fuel).state = target →
      ∀ k, jtag_go_to_state_loop target cur (fuel + k) = jtag_go_to_state_loop target cur fuel := by
  intro fuel
  induction fuel with
  | zero =>
    intro cur h k
    cases k with
    | zero => rfl
    | succ k =>
      simp only [jtag_go_to_state_loop] at h ⊢
      simp [h]
  | succ fuel ih =>
    intro cur h k
    by_cases hc : cur = target
    · simp only [jtag_go_to_state_loop, if_pos hc] at h ⊢
      have : fuel + 1 + k = (fuel + k) + 1 := by omega
      rw [this]
      simp only [jtag_go_to_state_loop, if_pos hc]
    · simp only [jtag_go_to_state_loop, if_neg hc] at h ⊢
      have : fuel + 1 + k = (fuel + k) + 1 := by omega
      rw [this]
      simp only [jtag_go_to_state_loop, if_neg hc]
      rw [ih _ h k]

lemma jtag_go_to_state_stable (target cur fuel : Nat)
    (h : (jtag_go_to_state target cur fuel).state = target) :
    ∀ k, jtag_go_to_state target cur (fuel + k) = jtag_go_to_state target cur fuel := by
  intro k
  unfold jtag_go_to_state at h ⊢
  by_cases h0 : target = STATE_TEST_LOGIC_RESET
  · simp [if_pos h0]
  · simp only [if_neg h0] at h ⊢
    exact jtag_go_to_state_loop_stable target fuel cur h k

lemma jtag_reach_eight : ∀ s, s < 16 → ∀ t, t < 16 →
    (jtag_go_to_state t s 8).state = t ∧ (jtag_go_to_state t s 8).acks ≤ 8 := by decide

/-- C1 counterexample: from `STATE_CAPTURE_DR` to `STATE_EXIT2_IR` the
next-hop loop needs 8 TAP-state advances; with only 6 it has not reached the
target, so the claimed bound of 6 is false. -/
theorem tap_hop_bound_six_fails :
    (jtag_go_to_state STATE_EXIT2_IR STATE_CAPTURE_DR 6).state ≠ STATE_EXIT2_IR ∧
    (jtag_go_to_state STATE_EXIT2_IR STATE_CAPTURE_DR 8).state = STATE_EXIT2_IR ∧
    (jtag_go_to_state STATE_EXIT2_IR STATE_CAPTURE_DR 8).acks = 8 := by decide

/-- C1 (amended): for every pair (s, t) of the 16 TAP states,
`jtag_go_to_state(t)` from s terminates after at most 8 TAP-state advances
(`jtag_state_ack` calls) and leaves the current state equal to t; in the fuel
model, any fuel of at least 8 yields the same, already-converged result, so
the `tms_map` next-hop table is loop-free toward every target. -/
theorem tap_reachability_within_eight (s t fuel : Nat)
    (hs : s < 16) (ht : t < 16) (hf : 8 ≤ fuel) :
    (jtag_go_to_state t s fuel).state = t ∧
    (jtag_go_to_state t s fuel).acks ≤ 8 ∧
    jtag_go_to_state t s fuel = jtag_go_to_state t s 8 := by
  obtain ⟨k, rfl⟩ : ∃ k, fuel = 8 + k := ⟨fuel - 8, by omega⟩
  have h8 := jtag_reach_eight s hs t ht
  have hst := jtag_go_to_state_stable t s 8 h8.1 k
  exact ⟨by rw [hst]; exact h8.1, by rw [hst]; exact h8.2, hst⟩

theorem tap_reachability_within_eight_witness :
    (3 : Nat) < 16 ∧ (14 : Nat) < 16 ∧ (8 : Nat) ≤ 9 ∧
    (jtag_go_to_state 14 3 9).state = 14 :=
  ⟨by decide, by decide, by decide,
    (tap_reachability_within_eight 3 14 9 (by decide) (by decide) (by decide)).1⟩

/-- C4: from every starting TAP state, `jtag_go_to_state(Test-Logic-Reset)`
queues exactly 5 TMS=1 pulses (never fewer, never more, never a TMS=0 bit),
applies the TMS=1 transition to the state exactly 5 times, and the resulting
state is `STATE_TEST_LOGIC_RESET` — independent of the loop fuel, since the
reset branch never enters the loop. -/
theorem reset_emits_five_tms_pulses (s fuel : Nat) (hs : s < 16) :
    jtag_go_to_state STATE_TEST_LOGIC_RESET s fuel =
      ⟨STATE_TEST_LOGIC_RESET, List.replicate 5 true, 5⟩ := by
  unfold jtag_go_to_state
  rw [if_pos rfl]
  revert hs
  revert s
  decide

theorem reset_emits_five_tms_pulses_witness :
    (11 : Nat) < 16 ∧
    jtag_go_to_state STATE_TEST_LOGIC_RESET 11 0 =
      ⟨STATE_TEST_LOGIC_RESET, List.replicate 5 true, 5⟩ :=
  ⟨by decide, reset_emits_five_tms_pulses 11 0 (by decide)⟩

/-- C5 counterexample: with the current state already equal to the target,
`jtag_go_to_state(Test-Logic-Reset)` is not a no-op — it still emits 5 TMS
bits, so the claim is false for the target `STATE_TEST_LOGIC_RESET`. -/
theorem goto_self_reset_not_noop :
    (jtag_go_to_state STATE_TEST_LOGIC_RESET STATE_TEST_LOGIC_RESET 8).tms ≠ [] := by decide

/-- C5 (amended): for every target other than Test-Logic-Reset, if the
current state already equals the target then `jtag_go_to_state` is a no-op:
zero TMS bits emitted, zero advances, state unchanged.  For target
Test-Logic-Reset it instead emits the unconditional 5-pulse reset sequence,
which leaves the state at Test-Logic-Reset (unchanged). -/
theorem goto_self_noop_except_reset (t fuel : Nat) (ht : t < 16)
    (hne : t ≠ STATE_TEST_LOGIC_RESET) :
    jtag_go_to_state t t fuel = ⟨t, [], 0⟩ ∧
    jtag_go_to_state STATE_TEST_LOGIC_RESET STATE_TEST_LOGIC_RESET fuel =
      ⟨STATE_TEST_LOGIC_RESET, List.replicate 5 true, 5⟩ := by
  constructor
  · unfold jtag_go_to_state
    rw [if_neg hne]
    cases fuel with
    | zero => rfl
    | succ fuel => simp [jtag_go_to_state_loop]
  · unfold jtag_go_to_state
    rw [if_pos rfl]
    decide

theorem goto_self_noop_except_reset_witness :
    (4 : Nat) < 16 ∧ (4 : Nat) ≠ STATE_TEST_LOGIC_RESET ∧
    jtag_go_to_state 4 4 8 = ⟨4, [], 0⟩ :=
  ⟨by decide, by decide, (goto_self_noop_except_reset 4 8 (by decide) (by decide)).1⟩

/-- Observable outcome of a `jtag_tap_shift` call: the queued (TMS, TDI)
pulses in transmission order, the remaining `bit_count`, the final TAP
state, and the number of `jtag_state_ack` calls. -/
structure ShiftResult where
  pulses : List (Bool × Bool)
  bitCount : Nat
  state : Nat
  acks : Nat
deriving DecidableEq

/-- The inner `for (int j = 0; j < 8 && bit_count-- > 0; ++j)` loop of
`jtag_tap_shift` (`src/jtag_tap.c` lines 172-180), for one input byte.
`jLeft` is `8 - j`.  The test `bit_count-- > 0` fails exactly when
`bit_count` is zero and then exits the loop (the post-decrement wraps the
dead `uint32_t` value to `2^32 - 1`, which is never read again because this
can only happen in the last byte).  When the decremented count hits zero and
`must_end` holds, the bit is sent with TMS=1 and `jtag_state_ack(1)` runs
before the pulse is queued. -/
def jtag_tap_shift_bits (byteOut bitCount : Nat) (mustEnd : Bool) (st : Nat) :
    Nat → ShiftResult
  | 0 => ⟨[], bitCount, st, 0⟩
  | jLeft+1 =>
    if bitCount = 0 then ⟨[], 0, st, 0⟩
    else
      let bitCount' := bitCount - 1
      let fire : Bool := (bitCount' == 0) && mustEnd
      let st' := if fire then jtag_state_ack true st else st
      let a := if fire then 1 else 0
      let r := jtag_tap_shift_bits (byteOut >>> 1) bitCount' mustEnd st' jLeft
      ⟨(fire, (byteOut &&& 1) != 0) :: r.pulses, r.bitCount, r.state, a + r.acks⟩

/-- The outer `for (uint32_t i = 0; i < byte_count; ++i)` loop of
`jtag_tap_shift` (`src/jtag_tap.c` lines 169-181). -/
def jtag_tap_shift_bytes (input : Nat → Nat) (mustEnd : Bool) :
    Nat → Nat → Nat → Nat → ShiftResult
  | i, byteCount, bitCount, st =>
    if h : i < byteCount then
      let r := jtag_tap_shift_bits (input i) bitCount mustEnd st 8
      let r2 := jtag_tap_shift_bytes input mustEnd (i+1) byteCount r.bitCount r.state
      ⟨r.pulses ++ r2.pulses, r2.bitCount, r2.state, r.acks + r2.acks⟩
    else ⟨[], bitCount, st, 0⟩
termination_by i byteCount _ _ => byteCount - i

/-- `jtag_tap_shift` of `src/jtag_tap.c` (lines 157-189), as far as the
queued pulse stream and TAP-state bookkeeping are concerned.  `input i` is
`input_data[i]`; `byte_count = (data_bits + 7) / 8`. -/
def jtag_tap_shift (input : Nat → Nat) (data_bits : Nat) (must_end : Bool)
    (st : Nat) : ShiftResult :=
  jtag_tap_shift_bytes input must_end 0 ((data_bits + 7) / 8) data_bits st

lemma jtag_tap_shift_bits_zero (byteOut : Nat) (mustEnd : Bool) (st : Nat) :
    ∀ jLeft, jtag_tap_shift_bits byteOut 0 mustEnd st jLeft = ⟨[], 0, st, 0⟩ := by
  intro jLeft
  cases jLeft <;> simp [jtag_tap_shift_bits]

/-- Inner loop, `must_end = false`: processes `min jLeft bitCount` bits, all
with TMS=0, no state change and no advances. -/
lemma jtag_tap_shift_bits_no_end :
    ∀ jLeft byteOut bitCount st,
      (jtag_tap_shift_bits byteOut bitCount false st jLeft).pulses.map Prod.fst =
        List.replicate (min jLeft bitCount) false ∧
      (jtag_tap_shift_bits byteOut bitCount false st jLeft).bitCount =
        bitCount - min jLeft bitCount ∧
      (jtag_tap_shift_bits byteOut bitCount false st jLeft).state = st ∧
      (jtag_tap_shift_bits byteOut bitCount false st jLeft).acks = 0 := by
  intro jLeft
  induction jLeft with
  | zero => intro byteOut bitCount st; simp [jtag_tap_shift_bits]
  | succ jLeft ih =>
    intro byteOut bitCount st
    cases bitCount with
    | zero => simp [jtag_tap_shift_bits]
    | succ n =>
      have hmin : min (jLeft + 1) (n + 1) = (min jLeft n) + 1 := by omega
      obtain ⟨h1, h2, h3, h4⟩ := ih (byteOut >>> 1) n st
      simp only [jtag_tap_shift_bits, Nat.succ_ne_zero, if_neg,
        Nat.add_sub_cancel, Bool.and_false, hmin, List.replicate_succ]
      refine ⟨?_, ?_, ?_, ?_⟩ <;> simp [h1, h2, h3, h4]

/-- Inner loop, more bits left than slots: all `jLeft` slots are used, all
with TMS=0, and `jLeft` bits are consumed. -/
lemma jtag_tap_shift_bits_full :
    ∀ jLeft byteOut bitCount st (mustEnd : Bool), jLeft < bitCount →
      (jtag_tap_shift_bits byteOut bitCount mustEnd st jLeft).pulses.map Prod.fst =
        List.replicate jLeft false ∧
      (jtag_tap_shift_bits byteOut bitCount mustEnd st jLeft).bitCount = bitCount - jLeft ∧
      (jtag_tap_shift_bits byteOut bitCount mustEnd st jLeft).state = st ∧
      (jtag_tap_shift_bits byteOut bitCount mustEnd st jLeft).acks = 0 := by
  intro jLeft
  induction jLeft with
  | zero => intro byteOut bitCount st mustEnd _; simp [jtag_tap_shift_bits]
  | succ jLeft ih =>
    intro byteOut bitCount st mustEnd hlt
    obtain ⟨n, rfl⟩ : ∃ n, bitCount = n + 1 := ⟨bitCount - 1, by omega⟩
    have hn : jLeft < n := by omega
    have hfire : ((n == 0) && mustEnd) = false := by
      have : n ≠ 0 := by omega
      simp [this]
    obtain ⟨h1, h2, h3, h4⟩ := ih (byteOut >>> 1) n st mustEnd hn
    simp only [jtag_tap_shift_bits, Nat.succ_ne_zero, if_neg,
      Nat.add_sub_cancel, hfire, List.replicate_succ]
    refine ⟨?_, ?_, ?_, ?_⟩ <;> simp [h1, h2, h3, h4]

/-- Inner loop, `must_end = true` and the bits run out within this byte:
TMS=1 fires exactly on the final bit, `jtag_state_ack(true)` runs once, and
the state advances once. -/
lemma jtag_tap_shift_bits_last :
    ∀ bitCount jLeft byteOut st, 1 ≤ bitCount → bitCount ≤ jLeft →
      (jtag_tap_shift_bits byteOut bitCount true st jLeft).pulses.map Prod.fst =
        List.replicate (bitCount - 1) false ++ [true] ∧
      (jtag_tap_shift_bits byteOut bitCount true st jLeft).bitCount = 0 ∧
      (jtag_tap_shift_bits byteOut bitCount true st jLeft).state = jtag_state_ack true st ∧
      (jtag_tap_shift_bits byteOut bitCount true st jLeft).acks = 1 := by
  intro bitCount
  induction bitCount with
  | zero => intro jLeft byteOut st h; omega
  | succ n ih =>
    intro jLeft byteOut st _ hle
    obtain ⟨j, rfl⟩ : ∃ j, jLeft = j + 1 := ⟨jLeft - 1, by omega⟩
    cases n with
    | zero =>
      have h0 := jtag_tap_shift_bits_zero (byteOut >>> 1) true (jtag_state_ack true st) j
      simp only [jtag_tap_shift_bits, Nat.succ_ne_zero, if_neg,
        Nat.add_sub_cancel]
      simp [h0]
    | succ m =>
      have hfire : ((m + 1 == 0) && true) = false := by simp
      obtain ⟨h1, h2, h3, h4⟩ := ih j (byteOut >>> 1) st (by omega) (by omega)
      simp only [jtag_tap_shift_bits, Nat.succ_ne_zero, if_neg,
        Nat.add_sub_cancel, hfire]
      refine ⟨?_, ?_, ?_, ?_⟩ <;>
        simp [h1, h2, h3, h4, List.replicate_succ]

/-- Outer loop with no bits left: every remaining byte iteration exits its
inner loop immediately and nothing is queued. -/
lemma jtag_tap_shift_bytes_zero (input : Nat → Nat) (mustEnd : Bool) :
    ∀ k i st, jtag_tap_shift_bytes input mustEnd i (i + k) 0 st = ⟨[], 0, st, 0⟩ := by
  intro k
  induction k with
  | zero =>
    intro i st
    unfold jtag_tap_shift_bytes
    simp
  | succ k ih =>
    intro i st
    unfold jtag_tap_shift_bytes
    rw [dif_pos (by omega : i < i + (k + 1))]
    rw [jtag_tap_shift_bits_zero]
    have := ih (i + 1) st
    have harg : i + 1 + k = i + (k + 1) := by omega
    rw [harg] at this
    simp [this]

/-- Outer loop, `must_end = false`: a shift of `bitCount` bits over `k` bytes
(`bitCount ≤ 8 k`) queues `bitCount` TMS=0 pulses, changes no state and makes
no advances. -/
lemma jtag_tap_shift_bytes_no_end (input : Nat → Nat) :
    ∀ k i bitCount st, bitCount ≤ 8 * k →
      (jtag_tap_shift_bytes input false i (i + k) bitCount st).pulses.map Prod.fst =
        List.replicate bitCount false ∧
      (jtag_tap_shift_bytes input false i (i + k) bitCount st).state = st ∧
      (jtag_tap_shift_bytes input false i (i + k) bitCount st).acks = 0 := by
  intro k
  induction k with
  | zero =>
    intro i bitCount st hbc
    have : bitCount = 0 := by omega
    subst this
    unfold jtag_tap_shift_bytes
    simp
  | succ k ih =>
    intro i bitCount st hbc
    unfold jtag_tap_shift_bytes
    rw [dif_pos (by omega : i < i + (k + 1))]
    obtain ⟨g1, g2, g3, g4⟩ := jtag_tap_shift_bits_no_end 8 (input i) bitCount st
    have harg : i + 1 + k = i + (k + 1) := by omega
    have hrest : bitCount - min 8 bitCount ≤ 8 * k := by omega
    obtain ⟨r1, r2, r3⟩ := ih (i + 1) (bitCount - min 8 bitCount) st hrest
    rw [harg] at r1 r2 r3
    simp only [g2, g3]
    refine ⟨?_, ?_, ?_⟩
    · simp only [List.map_append, g1, r1]
      rw [← List.replicate_add]
      have : min 8 bitCount + (bitCount - min 8 bitCount) = bitCount := by omega
      rw [this]
    · simpa using r2
    · simp [g4, r3]

/-- Outer loop, `must_end = true`: a shift of `bitCount ≥ 1` bits over `k`
bytes (`bitCount ≤ 8 k`) queues TMS=0 on every pulse except the last, TMS=1
on the last, advances the state exactly once via `jtag_state_ack(true)`. -/
lemma jtag_tap_shift_bytes_must_end (input : Nat → Nat) :
    ∀ k i bitCount st, 1 ≤ bitCount → bitCount ≤ 8 * k →
      (jtag_tap_shift_bytes input true i (i + k) bitCount st).pulses.map Prod.fst =
        List.replicate (bitCount - 1) false ++ [true] ∧
      (jtag_tap_shift_bytes input true i (i + k) bitCount st).state =
        jtag_state_ack true st ∧
      (jtag_tap_shift_bytes input true i (i + k) bitCount st).acks = 1 := by
  intro k
  induction k with
  | zero => intro i bitCount st h1 h2; omega
  | succ k ih =>
    intro i bitCount st hb1 hb2
    unfold jtag_tap_shift_bytes
    rw [dif_pos (by omega : i < i + (k + 1))]
    by_cases hsmall : bitCount ≤ 8
    · obtain ⟨g1, g2, g3, g4⟩ :=
        jtag_tap_shift_bits_last bitCount 8 (input i) st hb1 hsmall
      have hz := jtag_tap_shift_bytes_zero input true k (i + 1) (jtag_state_ack true st)
      have harg : i + 1 + k = i + (k + 1) := by omega
      rw [harg] at hz
      simp only [g2, g3]
      refine ⟨?_, ?_, ?_⟩
      · simp [g1, hz]
      · simp [hz, g3]
      · simp [hz, g4]
    · have hlt : 8 < bitCount := by omega
      obtain ⟨g1, g2, g3, g4⟩ :=
        jtag_tap_shift_bits_full 8 (input i) bitCount st true hlt
      have hrest1 : 1 ≤ bitCount - 8 := by omega
      have hrest2 : bitCount - 8 ≤ 8 * k := by omega
      obtain ⟨r1, r2, r3⟩ := ih (i + 1) (bitCount - 8) st hrest1 hrest2
      have harg : i + 1 + k = i + (k + 1) := by omega
      rw [harg] at r1 r2 r3
      simp only [g2, g3]
      refine ⟨?_, ?_, ?_⟩
      · simp only [List.map_append, g1, r1]
        rw [← List.append_assoc, ← List.replicate_add]
        have : 8 + (bitCount - 8 - 1) = bitCount - 1 := by omega
        rw [this]
      · simpa using r2
      · simp [g4, r3]

lemma byte_count_bound (n : Nat) : n ≤ 8 * ((n + 7) / 8) := by
  have h1 := Nat.div_add_mod (n + 7) 8
  have h2 : (n + 7) % 8 < 8 := Nat.mod_lt _ (by omega)
  omega

/-- C6: for a shift of `N ≥ 1` bits with `must_end = true` starting in
Shift-DR, `jtag_tap_shift` queues TMS=1 on exactly the final pulse and TMS=0
on all earlier pulses, calls `jtag_state_ack(true)` exactly once, and the
resulting TAP state is Exit1-DR; with `must_end = false` (from any state) no
TMS=1 pulse is queued, no advance happens, and the state is unchanged. -/
theorem tap_shift_must_end_tms_last (input : Nat → Nat) (N : Nat) (hN : 1 ≤ N) :
    ((jtag_tap_shift input N true STATE_SHIFT_DR).pulses.map Prod.fst =
        List.replicate (N - 1) false ++ [true] ∧
      (jtag_tap_shift input N true STATE_SHIFT_DR).acks = 1 ∧
      (jtag_tap_shift input N true STATE_SHIFT_DR).state = STATE_EXIT1_DR) ∧
    ∀ st, (jtag_tap_shift input N false st).pulses.map Prod.fst =
        List.replicate N false ∧
      (jtag_tap_shift input N false st).acks = 0 ∧
      (jtag_tap_shift input N false st).state = st := by
  have hbound := byte_count_bound N
  constructor
  · have h := jtag_tap_shift_bytes_must_end input ((N + 7) / 8) 0 N
      STATE_SHIFT_DR hN (by omega)
    simp only [Nat.zero_add] at h
    have hack : jtag_state_ack true STATE_SHIFT_DR = STATE_EXIT1_DR := by decide
    rw [hack] at h
    exact ⟨h.1, h.2.2, h.2.1⟩
  · intro st
    have h := jtag_tap_shift_bytes_no_end input ((N + 7) / 8) 0 N st (by omega)
    simp only [Nat.zero_add] at h
    exact ⟨h.1, h.2.2, h.2.1⟩

theorem tap_shift_must_end_tms_last_witness :
    (1 : Nat) ≤ 11 ∧
    ((jtag_tap_shift (fun _ => 0xA5) 11 true STATE_SHIFT_DR).pulses.map Prod.fst =
        List.replicate 10 false ++ [true] ∧
      (jtag_tap_shift (fun _ => 0xA5) 11 true STATE_SHIFT_DR).acks = 1 ∧
      (jtag_tap_shift (fun _ => 0xA5) 11 true STATE_SHIFT_DR).state = STATE_EXIT1_DR) :=
  ⟨by decide, (tap_shift_must_end_tms_last (fun _ => 0xA5) 11 (by decide)).1⟩

/-- One FTDI 1-bit `MC_DATA_IN | MC_DATA_LSB` read: the returned byte is the
chip's internal shift register after the captured TDO bit `b` is shifted in
at bit 7 (register value `r/2 + 128·b`).  This models the transport comment
of `src/jtag_tap.c` lines 185-186 ("Data out from the FTDI is actually from
an internal shift register"). -/
def mpsse_bit_read (r : Nat) (b : Bool) : Nat :=
  r / 2 + (if b then 128 else 0)

/-- The FTDI response stream of `jtag_tap_shift`: `mpsse_reg tdo r0 k` is the
shift-register value after pulses `0..k-1`, so the byte read back for pulse
`k` (C index `data[k]` after `mpsse_xfer`) is `mpsse_reg tdo r0 (k+1)`.
`tdo k` is the TDO bit captured at pulse `k`; `r0` the initial register. -/
def mpsse_reg (tdo : Nat → Bool) (r0 : Nat) : Nat → Nat
  | 0 => r0
  | k+1 => mpsse_bit_read (mpsse_reg tdo r0 k) (tdo k)

/-- The output-assembly loop of `jtag_tap_shift` (`src/jtag_tap.c` lines
187-188): `for (int i = 0; i < rx_cnt/8; i++) output_data[i] = data[7+i*8]`,
where `rx_cnt` is a `uint8_t` incremented once per pulse, hence equal to
`data_bits % 256`. -/
def jtag_tap_shift_output (tdo : Nat → Bool) (r0 : Nat) (data_bits : Nat) :
    List Nat :=
  List.map (fun i => mpsse_reg tdo r0 ((7 + i * 8) + 1))
    (List.range ((data_bits % 256) / 8))

lemma mpsse_reg_lt (tdo : Nat → Bool) (r0 : Nat) (h : r0 < 256) :
    ∀ k, mpsse_reg tdo r0 k < 256 := by
  intro k
  induction k with
  | zero => exact h
  | succ k ih =>
    show mpsse_bit_read (mpsse_reg tdo r0 k) (tdo k) < 256
    unfold mpsse_bit_read
    cases tdo k <;> simp <;> omega

/-- Eight consecutive 1-bit reads refill the register completely: the result
encodes the last eight captured bits, LSB first, independent of the previous
register contents. -/
lemma mpsse_bit_read_chain (r : Nat) (hr : r < 256) (b0 b1 b2 b3 b4 b5 b6 b7 : Bool) :
    mpsse_bit_read (mpsse_bit_read (mpsse_bit_read (mpsse_bit_read
      (mpsse_bit_read (mpsse_bit_read (mpsse_bit_read (mpsse_bit_read r b0)
        b1) b2) b3) b4) b5) b6) b7 =
      (cond b0 1 0) + 2 * cond b1 1 0 + 4 * cond b2 1 0 + 8 * cond b3 1 0 +
      16 * cond b4 1 0 + 32 * cond b5 1 0 + 64 * cond b6 1 0 + 128 * cond b7 1 0 := by
  have e : ∀ (b : Bool), (if b then (128 : Nat) else 0) = 128 * cond b 1 0 := by
    intro b; cases b <;> simp
  have hb : ∀ (b : Bool), cond b 1 0 ≤ 1 := by intro b; cases b <;> simp
  unfold mpsse_bit_read
  rw [e b0, e b1, e b2, e b3, e b4, e b5, e b6, e b7]
  have h0 := hb b0
  have h1 := hb b1
  have h2 := hb b2
  have h3 := hb b3
  have h4 := hb b4
  have h5 := hb b5
  have h6 := hb b6
  have h7 := hb b7
  generalize cond b0 1 0 = c0 at h0 ⊢
  generalize cond b1 1 0 = c1 at h1 ⊢
  generalize cond b2 1 0 = c2 at h2 ⊢
  generalize cond b3 1 0 = c3 at h3 ⊢
  generalize cond b4 1 0 = c4 at h4 ⊢
  generalize cond b5 1 0 = c5 at h5 ⊢
  generalize cond b6 1 0 = c6 at h6 ⊢
  generalize cond b7 1 0 = c7 at h7 ⊢
  omega

/-- The response byte taken for output index `i` (every 8th byte,
`data[7 + i*8]`) is exactly bits `8i .. 8i+7` of the TDO stream, LSB
first. -/
lemma mpsse_reg_byte (tdo : Nat → Bool) (r0 : Nat) (h : r0 < 256) (i : Nat) :
    mpsse_reg tdo r0 ((7 + i * 8) + 1) =
      (cond (tdo (8 * i)) 1 0) + 2 * cond (tdo (8 * i + 1)) 1 0 +
      4 * cond (tdo (8 * i + 2)) 1 0 + 8 * cond (tdo (8 * i + 3)) 1 0 +
      16 * cond (tdo (8 * i + 4)) 1 0 + 32 * cond (tdo (8 * i + 5)) 1 0 +
      64 * cond (tdo (8 * i + 6)) 1 0 + 128 * cond (tdo (8 * i + 7)) 1 0 := by
  have hm : ∀ m, mpsse_reg tdo r0 (m + 1) = mpsse_bit_read (mpsse_reg tdo r0 m) (tdo m) :=
    fun m => rfl
  have e1 : (7 + i * 8) + 1 = (8 * i + 7) + 1 := by ring_nf
  rw [e1, hm, show 8 * i + 7 = (8 * i + 6) + 1 from rfl, hm,
    show 8 * i + 6 = (8 * i + 5) + 1 from rfl, hm,
    show 8 * i + 5 = (8 * i + 4) + 1 from rfl, hm,
    show 8 * i + 4 = (8 * i + 3) + 1 from rfl, hm,
    show 8 * i + 3 = (8 * i + 2) + 1 from rfl, hm,
    show 8 * i + 2 = (8 * i + 1) + 1 from rfl, hm,
    show 8 * i + 1 = (8 * i) + 1 from rfl, hm]
  exact mpsse_bit_read_chain (mpsse_reg tdo r0 (8 * i))
    (mpsse_reg_lt tdo r0 h (8 * i)) _ _ _ _ _ _ _ _

/-- C7 counterexample: a 12-bit shift captures 12 TDO bits but the output
loop delivers only `12 / 8 = 1` byte (8 bits) — the trailing 4 bits are
dropped, so the claim that every bit of a non-multiple-of-8 shift is still
delivered is false. -/
theorem tap_shift_partial_byte_dropped :
    (jtag_tap_shift_output (fun _ => true) 0 12).length * 8 < 12 := by decide

/-- C7 (amended): for a shift of `N` bits with `N` a multiple of 8 and
`N < 256` (the pulse counter `rx_cnt` is a `uint8_t`), `jtag_tap_shift`
writes all `N` captured TDO bits to the output buffer in shift order, LSB
first within each byte, independent of the FTDI register's previous
contents; a shift whose bit count is not a multiple of 8 delivers only the
leading `8·(N/8)` bits and drops the trailing `N mod 8` bits. -/
theorem tap_shift_output_full_bytes (tdo : Nat → Bool) (r0 N : Nat)
    (hr : r0 < 256) (h8 : N % 8 = 0) (hN : N < 256) :
    jtag_tap_shift_output tdo r0 N =
      List.map (fun i =>
        (cond (tdo (8 * i)) 1 0) + 2 * cond (tdo (8 * i + 1)) 1 0 +
        4 * cond (tdo (8 * i + 2)) 1 0 + 8 * cond (tdo (8 * i + 3)) 1 0 +
        16 * cond (tdo (8 * i + 4)) 1 0 + 32 * cond (tdo (8 * i + 5)) 1 0 +
        64 * cond (tdo (8 * i + 6)) 1 0 + 128 * cond (tdo (8 * i + 7)) 1 0)
      (List.range (N / 8)) := by
  unfold jtag_tap_shift_output
  rw [Nat.mod_eq_of_lt hN]
  exact List.map_congr_left (fun i _ => mpsse_reg_byte tdo r0 hr i)

theorem tap_shift_output_full_bytes_witness :
    (0 : Nat) < 256 ∧ (16 : Nat) % 8 = 0 ∧ (16 : Nat) < 256 ∧
    jtag_tap_shift_output (fun k => k % 3 == 0) 0 16 =
      List.map (fun i =>
        (cond ((8 * i : Nat) % 3 == 0) 1 0) + 2 * cond ((8 * i + 1 : Nat) % 3 == 0) 1 0 +
        4 * cond ((8 * i + 2 : Nat) % 3 == 0) 1 0 + 8 * cond ((8 * i + 3 : Nat) % 3 == 0) 1 0 +
        16 * cond ((8 * i + 4 : Nat) % 3 == 0) 1 0 + 32 * cond ((8 * i + 5 : Nat) % 3 == 0) 1 0 +
        64 * cond ((8 * i + 6 : Nat) % 3 == 0) 1 0 + 128 * cond ((8 * i + 7 : Nat) % 3 == 0) 1 0)
      (List.range (16 / 8)) :=
  ⟨by decide, by decide, by decide,
    tap_shift_output_full_bytes (fun k => k % 3 == 0) 0 16 (by decide) (by decide) (by decide)⟩

/-- Bit pattern of the C expression `~mask` on a 32-bit `int`: all 32 bits
flipped. -/
def compl32 (mask : Nat) : Nat := 0xFFFFFFFF ^^^ mask

/-- The erase `for (int addr = begin_addr; addr < end_addr; addr +=
block_size)` loop of `main` (`src/ecpprog/ecpprog.c` lines 1218-1236),
returning the addresses at which a block-erase command is issued, in order.
The C loop is bounded because `block_size ≥ 1`; `fuel` bounds the modelled
iteration count. -/
def erase_loop (block_size end_addr : Nat) : Nat → Nat → List Nat
  | _, 0 => []
  | addr, fuel+1 =>
    if addr < end_addr then addr :: erase_loop block_size end_addr (addr + block_size) fuel
    else []

/-- The erase planning of `main` (`src/ecpprog/ecpprog.c` lines 1214-1237):
`block_size = erase_block_size << 10`, `block_mask = block_size - 1`,
`begin_addr = rw_offset & ~block_mask`,
`end_addr = (rw_offset + file_size + block_mask) & ~block_mask`, then one
block-erase per loop iteration.  `end_addr - begin_addr` fuel suffices for
every positive block size. -/
def erase_addresses (rw_offset file_size erase_block_size : Nat) : List Nat :=
  let block_size := erase_block_size <<< 10
  let block_mask := block_size - 1
  let begin_addr := Nat.land rw_offset (compl32 block_mask)
  let end_addr := Nat.land (rw_offset + file_size + block_mask) (compl32 block_mask)
  erase_loop block_size end_addr begin_addr (end_addr - begin_addr)

/-- The erase plan in the words of the spec: one block per block-aligned
address in `[floor(offset, B), ceil(offset + length, B))`, in increasing
order. -/
def spec_erase_blocks (offset length block_size : Nat) : List Nat :=
  let lo := block_size * (offset / block_size)
  let hi := block_size * ((offset + length + (block_size - 1)) / block_size)
  List.map (fun i => lo + block_size * i) (List.range ((hi - lo) / block_size))

/-- Masking a 32-bit value with `~(2^k - 1)` rounds it down to a multiple of
`2^k`. -/
lemma land_compl32_pow (x k : Nat) (hk : k ≤ 32) (hx : x < 2^32) :
    Nat.land x (compl32 (2^k - 1)) = 2^k * (x / 2^k) := by
  have hrhs : 2^k * (x / 2^k) = (x >>> k) <<< k := by
    rw [Nat.shiftRight_eq_div_pow, Nat.shiftLeft_eq, Nat.mul_comm]
  rw [hrhs]
  apply Nat.eq_of_testBit_eq
  intro i
  have hmask : (0xFFFFFFFF : Nat) = 2^32 - 1 := by norm_num
  rw [show Nat.land x (compl32 (2^k - 1)) = x &&& (compl32 (2^k - 1)) from rfl]
  unfold compl32
  rw [hmask]
  simp only [Nat.testBit_and, Nat.testBit_xor, Nat.testBit_two_pow_sub_one,
    Nat.testBit_shiftLeft, Nat.testBit_shiftRight]
  by_cases h1 : i < k
  · simp [h1, Nat.lt_of_lt_of_le h1 hk, Nat.not_le_of_lt h1]
  · by_cases h2 : i < 32
    · have hge : k ≤ i := by omega
      have : k + (i - k) = i := by omega
      simp [h1, h2, hge, this]
    · have hxi : x.testBit i = false := by
        apply Nat.testBit_lt_two_pow
        calc x < 2^32 := hx
        _ ≤ 2^i := Nat.pow_le_pow_right (by omega) (by omega)
      have hge : k ≤ i := by omega
      have : k + (i - k) = i := by omega
      simp [h1, h2, hge, this, hxi]

/-- The erase loop from an aligned start enumerates exactly `n` addresses in
steps of `B`. -/
lemma erase_loop_range (B : Nat) (hB : 0 < B) :
    ∀ n a fuel, n ≤ fuel →
      erase_loop B (a + n * B) a fuel = List.map (fun i => a + B * i) (List.range n) := by
  intro n
  induction n with
  | zero =>
    intro a fuel _
    cases fuel with
    | zero => rfl
    | succ fuel => simp [erase_loop]
  | succ n ih =>
    intro a fuel hf
    obtain ⟨f, rfl⟩ : ∃ f, fuel = f + 1 := ⟨fuel - 1, by omega⟩
    have hlt : a < a + (n + 1) * B := by
      have : 0 < (n + 1) * B := by positivity
      omega
    have harith : a + (n + 1) * B = (a + B) + n * B := by
      rw [Nat.succ_mul]; omega
    rw [erase_loop, if_pos hlt, harith, ih (a + B) f (by omega)]
    rw [List.range_succ_eq_map]
    simp only [List.map_cons, Nat.mul_zero, Nat.add_zero, List.map_map]
    congr 1
    apply List.map_congr_left
    intro i _
    simp only [Function.comp_apply]
    rw [Nat.mul_succ]
    omega

/-- C3-helper: for a power-of-two block size `2^k`, the erase planner
produces exactly the spec-aligned block list. -/
lemma erase_addresses_pow (off len k esz : Nat) (hk : k ≤ 32)
    (hB : esz <<< 10 = 2^k)
    (hrange : off + len + (2^k - 1) < 2^31) :
    erase_addresses off len esz = spec_erase_blocks off len (2^k) := by
  have hBpos : (0:Nat) < 2^k := Nat.pos_pow_of_pos k (by omega)
  have hoff : off < 2^32 := by
    have : (2:Nat)^31 < 2^32 := by norm_num
    omega
  have hsum : off + len + (2^k - 1) < 2^32 := by
    have : (2:Nat)^31 < 2^32 := by norm_num
    omega
  unfold erase_addresses spec_erase_blocks
  simp only [hB]
  rw [land_compl32_pow off k hk hoff, land_compl32_pow _ k hk hsum]
  set q1 := off / 2^k with hq1
  set q2 := (off + len + (2^k - 1)) / 2^k with hq2
  have hq : q1 ≤ q2 := by
    apply Nat.div_le_div_right
    omega
  have hend : 2^k * q2 = 2^k * q1 + (q2 - q1) * 2^k := by
    rw [Nat.sub_mul]
    have h1 : q1 * 2^k ≤ q2 * 2^k := Nat.mul_le_mul_right _ hq
    rw [Nat.mul_comm (2^k) q2, Nat.mul_comm (2^k) q1]
    omega
  have hfuel : 2^k * q2 - 2^k * q1 = (q2 - q1) * 2^k := by omega
  have hn : q2 - q1 ≤ (q2 - q1) * 2^k := Nat.le_mul_of_pos_right _ hBpos
  rw [hfuel, hend, erase_loop_range (2^k) hBpos (q2 - q1) (2^k * q1) _ hn]
  congr 1
  rw [Nat.mul_div_cancel _ hBpos]

/-- C2 counterexample: for offset 0x00F000, length 0x2000 and 64 KiB blocks,
the planner erases two blocks (0x000000 and 0x010000), because
`0x00F000 + 0x2000 = 0x11000` rounds up to `0x20000`; the claimed single
block is false. -/
theorem erase_example_not_single_block :
    (erase_addresses 0x00F000 0x2000 64).length ≠ 1 := by decide

/-- C2 (amended): for an erase request with offset 0x00F000, length 0x2000
and 64 KiB (0x10000) blocks, the computed aligned erase range is
[0x000000, 0x020000): exactly two block-erase commands, at 0x000000 and
0x010000, in that order. -/
theorem erase_example_two_blocks :
    erase_addresses 0x00F000 0x2000 64 = [0x000000, 0x010000] := by decide

/-- C3: for every erase request `[offset, offset + length)` and selected
block size 4, 32 or 64 KiB (within the 32-bit address arithmetic of the C
code), the engine issues exactly one block-erase per block of the aligned
range `[floor(offset, B), ceil(offset + length, B))`, in increasing address
order, and none outside it. -/
theorem erase_plan_matches_aligned_range (off len esz : Nat)
    (hesz : esz = 4 ∨ esz = 32 ∨ esz = 64)
    (hrange : off + len + ((esz <<< 10) - 1) < 2^31) :
    erase_addresses off len esz = spec_erase_blocks off len (esz <<< 10) := by
  rcases hesz with rfl | rfl | rfl
  · have h : (4 : Nat) <<< 10 = 2^12 := by decide
    rw [h] at hrange ⊢
    exact erase_addresses_pow off len 12 4 (by omega) (by decide) hrange
  · have h : (32 : Nat) <<< 10 = 2^15 := by decide
    rw [h] at hrange ⊢
    exact erase_addresses_pow off len 15 32 (by omega) (by decide) hrange
  · have h : (64 : Nat) <<< 10 = 2^16 := by decide
    rw [h] at hrange ⊢
    exact erase_addresses_pow off len 16 64 (by omega) (by decide) hrange

theorem erase_plan_matches_aligned_range_witness :
    ((64 : Nat) = 4 ∨ (64 : Nat) = 32 ∨ (64 : Nat) = 64) ∧
    (0x100000 : Nat) + 0x48000 + ((64 <<< 10) - 1) < 2^31 ∧
    erase_addresses 0x100000 0x48000 64 = spec_erase_blocks 0x100000 0x48000 (64 <<< 10) :=
  ⟨by decide, by decide,
    erase_plan_matches_aligned_range 0x100000 0x48000 64 (by decide) (by decide)⟩

/-- The inner `for (int written, block_offset = 0; block_offset < rc;
block_offset += written)` loop of `main`'s program phase
(`src/ecpprog/ecpprog.c` lines 1249-1264), returning the
`(write_addr, written)` page-program segments it issues, in order.  Note the
cap compares against `read_blocksize`, not against `rc`.  Each iteration
advances `block_offset` by at least 1 (for `rc ≤ read_blocksize`), so `rc`
fuel suffices. -/
def prog_chunk_loop (rw_offset addr rc read_blocksize : Nat) :
    Nat → Nat → List (Nat × Nat)
  | _, 0 => []
  | block_offset, fuel+1 =>
    if block_offset < rc then
      let write_addr := rw_offset + addr + block_offset
      let written0 := 256 - write_addr % 256
      let written := if read_blocksize < block_offset + written0
        then read_blocksize - block_offset else written0
      (write_addr, written) :: prog_chunk_loop rw_offset addr rc read_blocksize
        (block_offset + written) fuel
    else []

/-- The outer `for (int rc, addr = 0; true; addr += rc)` read/program loop of
`main` (`src/ecpprog/ecpprog.c` lines 1243-1264): each `fread` returns
`rc = min(read_blocksize, remaining)` bytes and the chunk is split into
page-program segments.  `file_size` fuel bounds the chunk count. -/
def prog_loop (rw_offset file_size read_blocksize : Nat) : Nat → Nat → List (Nat × Nat)
  | _, 0 => []
  | addr, fuel+1 =>
    let rc := min read_blocksize (file_size - addr)
    if 0 < rc then
      prog_chunk_loop rw_offset addr rc read_blocksize 0 rc ++
        prog_loop rw_offset file_size read_blocksize (addr + rc) fuel
    else []

/-- The page-program segments `main` issues for a file of `file_size` bytes
programmed at flash offset `rw_offset`, with the fixed
`read_blocksize = 256 * 32`. -/
def prog_segments (rw_offset file_size : Nat) : List (Nat × Nat) :=
  prog_loop rw_offset file_size (256 * 32) 0 file_size

/-- C8: evaluation at the failing input.  A program request at address
0x0FE covering 0x144 bytes (through 0x241) is split into `(0x0FE, 0x02)`,
`(0x100, 0x100)` and `(0x200, 0x100)`: the final page-program writes 0x100
bytes, not the 0x42 bytes of data that remain, because the split caps
`written` against `read_blocksize` instead of the chunk size `rc` — the
segments do not partition the data. -/
theorem prog_segments_failing_input_eval :
    prog_segments 0x0FE 0x144 = [(0x0FE, 0x02), (0x100, 0x100), (0x200, 0x100)] ∧
    0x0FE + 0x144 ≠ 0x200 + 0x100 := by decide

/-- The busy test of `flash_wait` (`src/ecpprog/ecpprog.c` line 399):
`(data[1] & 0x01) == 0`, where `sr i` is the status byte returned by the
i-th read-status poll. -/
def flash_busy_clear (sr : Nat → Nat) (i : Nat) : Bool :=
  Nat.land (sr i) 1 == 0

/-- The `while (1)` polling loop of `flash_wait` (`src/ecpprog/ecpprog.c`
lines 386-426): `count` consecutive-clear reads so far, `i` the index of the
next poll.  Returns the index of the poll at which the function breaks out,
or `none` if `fuel` polls were not enough. -/
def flash_wait_loop (sr : Nat → Nat) : Nat → Nat → Nat → Option Nat
  | _, _, 0 => none
  | count, i, fuel+1 =>
    if flash_busy_clear sr i then
      if count < 2 then flash_wait_loop sr (count+1) (i+1) fuel
      else some i
    else flash_wait_loop sr 0 (i+1) fuel

/-- `flash_wait` over a stream of status bytes, with `fuel` bounding the
number of polls (the C loop is unbounded by design). -/
def flash_wait (sr : Nat → Nat) (fuel : Nat) : Option Nat :=
  flash_wait_loop sr 0 0 fuel

/-- The busy bit has read clear on 3 consecutive polls ending at poll `m`. -/
def three_clear_at (sr : Nat → Nat) (m : Nat) : Prop :=
  2 ≤ m ∧ flash_busy_clear sr (m-2) = true ∧ flash_busy_clear sr (m-1) = true ∧
    flash_busy_clear sr m = true

instance (sr : Nat → Nat) (m : Nat) : Decidable (three_clear_at sr m) := by
  unfold three_clear_at
  infer_instance

/-- Invariant-carrying soundness of the polling loop: if it returns poll
index `n`, then the busy bit read clear at `n-2`, `n-1`, `n`, and no earlier
poll completed 3 consecutive clear reads. -/
lemma flash_wait_loop_sound (sr : Nat → Nat) :
    ∀ fuel count i n,
      count ≤ 2 → count ≤ i →
      (∀ d, d < count → flash_busy_clear sr (i - 1 - d) = true) →
      (count < 2 → count = i ∨ flash_busy_clear sr (i - 1 - count) = false) →
      flash_wait_loop sr count i fuel = some n →
      i ≤ n ∧ three_clear_at sr n ∧ ∀ m, i ≤ m → m < n → ¬ three_clear_at sr m := by
  intro fuel
  induction fuel with
  | zero => intro count i n _ _ _ _ h; exact absurd h (by simp [flash_wait_loop])
  | succ fuel ih =>
    intro count i n hc2 hci hprev hexact hrun
    rw [flash_wait_loop] at hrun
    by_cases hclear : flash_busy_clear sr i
    · rw [if_pos hclear] at hrun
      by_cases hlt : count < 2
      · rw [if_pos hlt] at hrun
        have hprev' : ∀ d, d < count + 1 → flash_busy_clear sr (i + 1 - 1 - d) = true := by
          intro d hd
          cases d with
          | zero => simpa using hclear
          | succ e =>
            have he : e < count := by omega
            have := hprev e he
            have harith : i + 1 - 1 - (e + 1) = i - 1 - e := by omega
            rwa [harith]
        have hexact' : count + 1 < 2 → count + 1 = i + 1 ∨
            flash_busy_clear sr (i + 1 - 1 - (count + 1)) = false := by
          intro h1
          have hc0 : count = 0 := by omega
          rcases hexact (by omega) with heq | hne
          · left; omega
          · right
            have harith : i + 1 - 1 - (count + 1) = i - 1 - count := by omega
            rwa [harith]
        obtain ⟨r1, r2, r3⟩ := ih (count+1) (i+1) n (by omega) (by omega) hprev' hexact' hrun
        refine ⟨by omega, r2, ?_⟩
        intro m him hmn
        by_cases hm : m = i
        · subst hm
          intro ⟨hm2, hma, hmb, _⟩
          rcases Nat.lt_or_ge count 2 with h | h
          · rcases hexact h with heq | hne
            · -- count = i, so the first i reads were all clear; with count < 2
              -- a triple ending at i would need i ≥ 2 and count ≥ 2
              have hc0 : count = 0 ∨ count = 1 := by omega
              rcases hc0 with rfl | rfl
              · omega
              · -- count = 1 = i contradicts 2 ≤ m = i
                omega
            · have hc0 : count = 0 ∨ count = 1 := by omega
              rcases hc0 with rfl | rfl
              · simp only [Nat.sub_zero] at hne
                rw [hmb] at hne
                simp at hne
              · rw [show m - 1 - 1 = m - 2 from by omega, hma] at hne
                simp at hne
          · omega
        · exact r3 m (by omega) hmn
      · rw [if_neg hlt] at hrun
        obtain rfl : n = i := by
          cases hrun; rfl
        have hcount : count = 2 := by omega
        refine ⟨Nat.le_refl n, ⟨by omega, ?_, ?_, hclear⟩, ?_⟩
        · have := hprev 1 (by omega)
          rwa [show n - 1 - 1 = n - 2 from by omega] at this
        · have := hprev 0 (by omega)
          rwa [Nat.sub_zero] at this
        · intro m h1 h2; omega
    · rw [if_neg hclear] at hrun
      have hprev' : ∀ d, d < 0 → flash_busy_clear sr (i + 1 - 1 - d) = true := by
        intro d hd; omega
      have hexact' : 0 < 2 → 0 = i + 1 ∨ flash_busy_clear sr (i + 1 - 1 - 0) = false := by
        intro _
        right
        simpa using (Bool.not_eq_true _).mp hclear
      obtain ⟨r1, r2, r3⟩ := ih 0 (i+1) n (by omega) (by omega) hprev' hexact' hrun
      refine ⟨by omega, r2, ?_⟩
      intro m him hmn
      by_cases hm : m = i
      · subst hm
        intro ⟨_, _, _, hmc⟩
        rw [hmc] at hclear
        exact hclear rfl
      · exact r3 m (by omega) hmn

/-- Invariant-carrying completeness of the polling loop: if `n ≥ i` is the
first poll (from `i` on) completing 3 consecutive clear reads, the loop
returns `some n` once given more than `n - i` polls of fuel. -/
lemma flash_wait_loop_complete (sr : Nat → Nat) :
    ∀ fuel count i n,
      count ≤ 2 → count ≤ i →
      (∀ d, d < count → flash_busy_clear sr (i - 1 - d) = true) →
      (count < 2 → count = i ∨ flash_busy_clear sr (i - 1 - count) = false) →
      i ≤ n → three_clear_at sr n →
      (∀ m, i ≤ m → m < n → ¬ three_clear_at sr m) →
      n - i < fuel →
      flash_wait_loop sr count i fuel = some n := by
  intro fuel
  induction fuel with
  | zero => intro count i n _ _ _ _ _ _ _ hfuel; omega
  | succ fuel ih =>
    intro count i n hc2 hci hprev hexact hin htriple hmin hfuel
    rw [flash_wait_loop]
    by_cases hin' : i = n
    · subst hin'
      obtain ⟨h2i, ha, hb, hc⟩ := htriple
      rw [if_pos hc]
      have hcount : ¬ count < 2 := by
        intro hlt
        rcases hexact hlt with heq | hne
        · -- count = i: the i reads so far were exactly count < 2 clears
          -- starting at poll 0, so i < 2, contradicting 2 ≤ i
          omega
        · -- the read just before the carried-in clears was busy
          rcases (by omega : count = 0 ∨ count = 1) with rfl | rfl
          · rw [show i - 1 - 0 = i - 1 from by omega, hb] at hne
            simp at hne
          · rw [show i - 1 - 1 = i - 2 from by omega, ha] at hne
            simp at hne
      rw [if_neg hcount]
    · have hlt : i < n := by omega
      by_cases hclear : flash_busy_clear sr i
      · rw [if_pos hclear]
        have hcount : count < 2 := by
          by_contra hge
          exact (hmin i (Nat.le_refl i) hlt)
            ⟨by omega,
             by have := hprev 1 (by omega)
                rwa [show i - 1 - 1 = i - 2 from by omega] at this,
             by have := hprev 0 (by omega)
                rwa [Nat.sub_zero] at this,
             hclear⟩
        rw [if_pos hcount]
        apply ih (count+1) (i+1) n (by omega) (by omega)
        · intro d hd
          cases d with
          | zero => simpa using hclear
          | succ e =>
            have := hprev e (by omega)
            rwa [show i + 1 - 1 - (e + 1) = i - 1 - e from by omega]
        · intro h1
          rcases hexact (by omega) with heq | hne
          · left; omega
          · right
            rwa [show i + 1 - 1 - (count + 1) = i - 1 - count from by omega]
        · omega
        · exact htriple
        · intro m him hmn
          exact hmin m (by omega) hmn
        · omega
      · rw [if_neg hclear]
        apply ih 0 (i+1) n (by omega) (by omega)
        · intro d hd; omega
        · intro _
          right
          simpa using (Bool.not_eq_true _).mp hclear
        · omega
        · exact htriple
        · intro m him hmn
          exact hmin m (by omega) hmn
        · omega

/-- C9: over the stream `sr` of status bytes, `flash_wait` returns exactly at
the first poll whose busy bit (bit 0) has read clear on 3 consecutive polls
(a busy read resets the count): (a) a return at poll `n` implies clear reads
at `n-2`, `n-1`, `n` and that no earlier poll completed such a run; (b) if
such a run first completes at poll `n`, the loop returns `some n` given
enough fuel — never earlier, never later; (c) if the busy bit never reads
clear 3 times in a row, the loop never returns, for any amount of fuel. -/
theorem flash_wait_three_consecutive_clears (sr : Nat → Nat) :
    (∀ fuel n, flash_wait sr fuel = some n →
      three_clear_at sr n ∧ ∀ m, m < n → ¬ three_clear_at sr m) ∧
    (∀ n fuel, three_clear_at sr n → (∀ m, m < n → ¬ three_clear_at sr m) →
      n < fuel → flash_wait sr fuel = some n) ∧
    ((∀ k, ¬ (flash_busy_clear sr k = true ∧ flash_busy_clear sr (k+1) = true ∧
        flash_busy_clear sr (k+2) = true)) →
      ∀ fuel, flash_wait sr fuel = none) := by
  have hsound := flash_wait_loop_sound sr
  refine ⟨?_, ?_, ?_⟩
  · intro fuel n hrun
    obtain ⟨_, h2, h3⟩ := hsound fuel 0 0 n (by omega) (by omega)
      (by intro d hd; omega) (by intro _; left; rfl) hrun
    exact ⟨h2, fun m hm => h3 m (by omega) hm⟩
  · intro n fuel htriple hmin hfuel
    exact flash_wait_loop_complete sr fuel 0 0 n (by omega) (by omega)
      (by intro d hd; omega) (by intro _; left; rfl) (by omega) htriple
      (fun m _ hm => hmin m hm) (by omega)
  · intro hnever fuel
    cases hrun : flash_wait sr fuel with
    | none => rfl
    | some n =>
      obtain ⟨_, ⟨h2n, ha, hb, hc⟩, _⟩ := hsound fuel 0 0 n (by omega) (by omega)
        (by intro d hd; omega) (by intro _; left; rfl) hrun
      refine absurd ⟨ha, ?_, ?_⟩ (hnever (n - 2))
      · rwa [show n - 2 + 1 = n - 1 from by omega]
      · rwa [show n - 2 + 2 = n from by omega]

theorem flash_wait_three_consecutive_clears_witness :
    flash_wait (fun k => if k = 0 then 1 else 0) 10 = some 3 ∧
    (three_clear_at (fun k => if k = 0 then 1 else 0) 3 ∧
      ∀ m, m < 3 → ¬ three_clear_at (fun k => if k = 0 then 1 else 0) m) :=
  ⟨(flash_wait_three_consecutive_clears (fun k => if k = 0 then 1 else 0)).2.1
      3 10 (by decide) (by decide) (by decide),
   (flash_wait_three_consecutive_clears (fun k => if k = 0 then 1 else 0)).1
      10 3 (by decide)⟩

/-- `enum device_type` of `src/ecpprog/ecpprog.c` (lines 50-54). -/
inductive DeviceType where
  | TYPE_NONE
  | TYPE_ECP5
  | TYPE_NX
deriving DecidableEq

/-- `ecp_devices` of `src/ecpprog/lattice_cmds.h` (lines 53-65):
(name, IDCODE) pairs of the known ECP5 parts. -/
def ecp_devices : List (String × Nat) := [
  ("LFE5U-12"   , 0x21111043),
  ("LFE5U-25"   , 0x41111043),
  ("LFE5U-45"   , 0x41112043),
  ("LFE5U-85"   , 0x41113043),
  ("LFE5UM-25"  , 0x01111043),
  ("LFE5UM-45"  , 0x01112043),
  ("LFE5UM-85"  , 0x01113043),
  ("LFE5UM5G-25", 0x81111043),
  ("LFE5UM5G-45", 0x81112043),
  ("LFE5UM5G-85", 0x81113043) ]

/-- `nx_devices` of `src/ecpprog/lattice_cmds.h` (lines 67-78). -/
def nx_devices : List (String × Nat) := [
  ("LIFCL-17",    0x010F0043),
  ("LIFCL-40-ES", 0x010F1043),
  ("LIFCL-40",    0x110F1043),
  ("LFD2NX-17",   0x310F0043),
  ("LFD2NX-40",   0x310F1043),
  ("LFCPNX-100",  0x010F4043) ]

/-- The device type `print_idcode` (`src/ecpprog/ecpprog.c` lines 452-477)
leaves in `connected_device.type`: ECP5 on a hit in the ECP5 table, else NX
on a hit in the NX table, else the initial `TYPE_NONE` ("does not
match"). -/
def print_idcode (idcode : Nat) : DeviceType :=
  if ecp_devices.any (fun p => p.2 == idcode) then DeviceType.TYPE_ECP5
  else if nx_devices.any (fun p => p.2 == idcode) then DeviceType.TYPE_NX
  else DeviceType.TYPE_NONE

/-- `LSC_READ_STATUS` of `src/ecpprog/lattice_cmds.h` (line 10). -/
def LSC_READ_STATUS : Nat := 0x3C

/-- One observable JTAG operation issued by `read_status_register`:
a TAP navigation, or a `jtag_tap_shift` of `bits` bits starting with input
byte `first` and ending (TMS=1 on the last bit) iff `mustEnd`. -/
inductive JtagOp where
  | goToState (s : Nat)
  | tapShift (first : Nat) (bits : Nat) (mustEnd : Bool)
deriving DecidableEq

/-- The 32-bit formatting loop of `read_status_register`
(`src/ecpprog/ecpprog.c` lines 660-662): `status = data[i] << 24 | status >> 8`
over 4 bytes of `uint32_t` arithmetic. -/
def status_format32 (dr : Nat → Nat) : Nat :=
  List.foldl (fun status i => ((dr i <<< 24) ||| (status >>> 8)) % 2^32)
    0 (List.range 4)

/-- The 64-bit formatting loop of `read_status_register`
(`src/ecpprog/ecpprog.c` lines 669-671): `status = data[i] << 56 | status >> 8`
over 8 bytes of `uint64_t` arithmetic. -/
def status_format64 (dr : Nat → Nat) : Nat :=
  List.foldl (fun status i => ((dr i <<< 56) ||| (status >>> 8)) % 2^64)
    0 (List.range 8)

/-- `read_status_register` of `src/ecpprog/ecpprog.c` (lines 645-677):
the JTAG operations it performs and the decoded status value it prints
(`none` when nothing is printed).  `ty` is `connected_device.type`, `dr i`
the i-th byte captured by the DR shift. -/
def read_status_register (ty : DeviceType) (dr : Nat → Nat) :
    List JtagOp × Option Nat :=
  let ops0 := [JtagOp.goToState STATE_SHIFT_IR,
               JtagOp.tapShift LSC_READ_STATUS 8 true,
               JtagOp.goToState STATE_SHIFT_DR]
  match ty with
  | DeviceType.TYPE_ECP5 =>
      (ops0 ++ [JtagOp.tapShift 0 32 true], some (status_format32 dr))
  | DeviceType.TYPE_NX =>
      (ops0 ++ [JtagOp.tapShift 0 64 true], some (status_format64 dr))
  | DeviceType.TYPE_NONE => (ops0, none)

/-- C10: if the IDCODE matches neither the ECP5 nor the NX device table, the
device type stays `TYPE_NONE`, and `read_status_register` still shifts the
`LSC_READ_STATUS` instruction into the IR and navigates to Shift-DR, but
performs no DR shift at all and decodes/prints no status value. -/
theorem read_status_register_unknown_skips_dr (idcode : Nat) (dr : Nat → Nat)
    (h1 : ∀ p ∈ ecp_devices, p.2 ≠ idcode)
    (h2 : ∀ p ∈ nx_devices, p.2 ≠ idcode) :
    print_idcode idcode = DeviceType.TYPE_NONE ∧
    read_status_register (print_idcode idcode) dr =
      ([JtagOp.goToState STATE_SHIFT_IR,
        JtagOp.tapShift LSC_READ_STATUS 8 true,
        JtagOp.goToState STATE_SHIFT_DR], none) := by
  have he : ecp_devices.any (fun p => p.2 == idcode) = false := by
    rw [List.any_eq_false]
    intro p hp
    simpa using h1 p hp
  have hn : nx_devices.any (fun p => p.2 == idcode) = false := by
    rw [List.any_eq_false]
    intro p hp
    simpa using h2 p hp
  have hty : print_idcode idcode = DeviceType.TYPE_NONE := by
    unfold print_idcode
    rw [he, hn]
    simp
  exact ⟨hty, by rw [hty]; rfl⟩

theorem read_status_register_unknown_skips_dr_witness :
    (∀ p ∈ ecp_devices, p.2 ≠ 0xDEADBEEF) ∧
    (∀ p ∈ nx_devices, p.2 ≠ 0xDEADBEEF) ∧
    read_status_register (print_idcode 0xDEADBEEF) (fun _ => 0) =
      ([JtagOp.goToState STATE_SHIFT_IR,
        JtagOp.tapShift LSC_READ_STATUS 8 true,
        JtagOp.goToState STATE_SHIFT_DR], none) :=
  ⟨by decide, by decide,
    (read_status_register_unknown_skips_dr 0xDEADBEEF (fun _ => 0)
      (by decide) (by decide)).2⟩
